import Mathlib

/-!
A shallow embedding of `advanced-vector/vector.h`: the raw storage layer
(`RawMemory`) and the growable array layer (`Vector`), modelled at the level
of element values.

A block of raw storage is a list of slots; a slot holds `some x` while a live
element with value `x` is constructed in it and `none` while it is
uninitialized (or after the element in it has been destroyed).  Machine
pointers become offsets from `GetAddress()`; `std::copy_n`,
`std::uninitialized_copy_n` and `std::uninitialized_move_n` become indexed
slot writes (`copyN`); `std::move_backward` and `std::move` become the
shifting loops `shiftUp` and `moveFwd`, written in the same iteration order
as the library loops so that overlapping ranges behave as in the source.
Moving an element is modelled as copying its value: the claims under study
compare element values, for which a succeeded move and a copy agree.

Operations whose source can run into undefined behaviour inside the claims'
scope (`Emplace`, `Erase`) return `Option`, with `none` marking an execution
that violates a precondition of the standard-library calls it makes or the
assertion at its head.  Exception behaviour (for the claims about throwing
element constructors) is modelled by separate fallible variants returning
`Except`, which additionally account for how many element constructions and
destructions the call performed and how many newly acquired blocks it
retained past propagation.
-/

namespace AdvVector

variable {T : Type}

/-- A block of element slots: `none` marks an uninitialized slot, `some x` a
slot holding a live element of value `x`. -/
abbrev Mem (T : Type) := List (Option T)

/-- Value of slot `i`; reading outside the block yields `none`. -/
def slotAt (m : Mem T) (i : Nat) : Option T := m.getD i none

/-- Models `std::copy_n` / `std::uninitialized_copy_n` /
`std::uninitialized_move_n` at the level of element values: slot
`dstOfs + i` of `dst` receives the value of slot `srcOfs + i` of `src`, for
each `i < n`.  (The source and destination ranges of these calls in
`vector.h` never overlap, so the write order is immaterial here.) -/
def copyN (src : Mem T) (srcOfs : Nat) (n : Nat) (dst : Mem T) (dstOfs : Nat) : Mem T :=
  match n with
  | 0 => dst
  | k + 1 => (copyN src srcOfs k dst dstOfs).set (dstOfs + k) (slotAt src (srcOfs + k))

/-- Models `std::destroy_n(addr + ofs, n)`: slots `[ofs, ofs + n)` become
uninitialized. -/
def destroyN (m : Mem T) (ofs : Nat) (n : Nat) : Mem T :=
  match n with
  | 0 => m
  | k + 1 => (destroyN m ofs k).set (ofs + k) none

/-- Models `std::move_backward(begin() + idx, begin() + idx + c, begin() + idx + c + 1)`:
slots `[idx + 1, idx + c + 1)` receive the values of slots `[idx, idx + c)`.
The writes happen from the top down, exactly as in the library loop, so each
slot is read before it is overwritten. -/
def shiftUp (m : Mem T) (idx : Nat) : Nat → Mem T
  | 0 => m
  | k + 1 => shiftUp (m.set (idx + k + 1) (slotAt m (idx + k))) idx k

/-- Models `std::move(begin() + idx + 1, begin() + idx + 1 + c, begin() + idx)`:
slots `[idx, idx + c)` receive the values of slots `[idx + 1, idx + c + 1)`.
The writes happen from the bottom up, exactly as in the library loop. -/
def moveFwd (m : Mem T) (idx : Nat) : Nat → Mem T
  | 0 => m
  | k + 1 => moveFwd (m.set idx (slotAt m (idx + 1))) (idx + 1) k

/-- The raw storage layer: `buffer_` is `none` when the pointer is null,
`some m` when it owns the block `m`; `capacity_` counts the slots.
(`RawMemory` in `vector.h`, lines 240-313.) -/
structure RawMemory (T : Type) where
  buffer_ : Option (Mem T)
  capacity_ : Nat
deriving DecidableEq

/-- Models `RawMemory<T>::Allocate(n)`: null for `n = 0`, otherwise a block
of `n` uninitialized slots. -/
def RawMemory.Allocate (T : Type) (n : Nat) : Option (Mem T) :=
  if n ≠ 0 then some (List.replicate n none) else none

/-- Models `RawMemory(size_t capacity)`: `buffer_(Allocate(capacity)),
capacity_(capacity)`. -/
def RawMemory.ofCapacity (T : Type) (n : Nat) : RawMemory T :=
  ⟨RawMemory.Allocate T n, n⟩

/-- Models `GetAddress()`: the block a pointer into which the accessor
returns (the empty block for a null pointer, through which the source never
actually reads or writes). -/
def RawMemory.GetAddress (d : RawMemory T) : Mem T := d.buffer_.getD []

/-- Consistency of a `RawMemory` value: the block has exactly `capacity_`
slots, and the pointer is null exactly when the capacity is `0` (the
invariant `Allocate` establishes and every operation of the source
maintains). -/
def RawMemory.WF (d : RawMemory T) : Prop :=
  d.GetAddress.length = d.capacity_ ∧ (d.buffer_.isNone ↔ d.capacity_ = 0)

/-- Models `RawMemory(RawMemory&& other)`: the members are
default-initialized to `{nullptr, 0}` and then swapped with `other`.
Returns (the constructed object, what `other` is left as). -/
def RawMemory.moveCtor (other : RawMemory T) : RawMemory T × RawMemory T :=
  (⟨other.buffer_, other.capacity_⟩, ⟨none, 0⟩)

/-- Models `RawMemory::operator=(RawMemory&&)` (non-self case):
`buffer_ = std::exchange(rhs.buffer_, nullptr); capacity_ =
std::exchange(rhs.capacity_, 0);`.  The previous `buffer_` of the target is
overwritten without a `Deallocate` call, so the third component — how many
blocks the assignment deallocates — is `0`.  Returns (new target, what `rhs`
is left as, blocks freed). -/
def RawMemory.moveAssign (lhs rhs : RawMemory T) : RawMemory T × RawMemory T × Nat :=
  (⟨rhs.buffer_, rhs.capacity_⟩, ⟨none, 0⟩, 0)

/-- The growable array layer (`Vector` in `vector.h`, lines 13-238). -/
structure Vector (T : Type) where
  data_ : RawMemory T
  size_ : Nat
deriving DecidableEq

/-- Models `Size()`. -/
def Vector.Size (v : Vector T) : Nat := v.size_

/-- Models `Capacity()`, i.e. `data_.Capacity()`. -/
def Vector.Capacity (v : Vector T) : Nat := v.data_.capacity_

/-- The block of slots of the vector, `data_.GetAddress()`. -/
def Vector.mem (v : Vector T) : Mem T := v.data_.GetAddress

/-- Well-formedness of a vector state: the raw layer is consistent, at most
`capacity` elements are recorded live, and slots `[0, size_)` actually hold
live elements. -/
def Vector.WF (v : Vector T) : Prop :=
  v.data_.WF ∧ v.size_ ≤ v.Capacity ∧ ∀ i, i < v.size_ → (slotAt v.mem i).isSome = true

/-- The live elements of the vector in index order, as observed through
`operator[]` on `[0, size_)`. -/
def Vector.toList [Inhabited T] (v : Vector T) : List T :=
  (List.range v.size_).map fun i => (slotAt v.mem i).getD default

/-- Models `explicit Vector(size_t size)` on the non-throwing path:
`data_(size)` allocates a block of `size` slots and
`std::uninitialized_value_construct_n` fills them with value-constructed
(default) elements. -/
def Vector.Construct (T : Type) [Inhabited T] (n : Nat) : Vector T :=
  ⟨⟨if n ≠ 0 then some (List.replicate n (some (default : T))) else none, n⟩, n⟩

/-- Models `EmplaceBack` / `PushBack` (lines 163-182) on the non-throwing
path.  At capacity: allocate `size_ * 2` (or `1`) slots, construct the new
element at `new_data + size_`, migrate the old elements to `[0, size_)`
(`uninitialized_move_n` or `uninitialized_copy_n`, identical on values),
destroy the old elements and adopt the new block.  Under capacity: construct
the new element at `data_ + size_`.  Either way `++size_`. -/
def Vector.EmplaceBack (v : Vector T) (x : T) : Vector T :=
  if v.size_ = v.Capacity then
    let newCap := if v.size_ ≠ 0 then v.size_ * 2 else 1
    let m := (RawMemory.ofCapacity T newCap).GetAddress.set v.size_ (some x)
    ⟨⟨some (copyN v.mem 0 v.size_ m 0), newCap⟩, v.size_ + 1⟩
  else
    ⟨⟨some (v.mem.set v.size_ (some x)), v.data_.capacity_⟩, v.size_ + 1⟩

/-- Models `PushBack(value)`: delegates to `EmplaceBack`. -/
def Vector.PushBack (v : Vector T) (x : T) : Vector T := v.EmplaceBack x

/-- Models `PopBack()`: `std::destroy_at(end() - 1); --size_;`.  Calling it
on an empty vector is undefined behaviour in the source; the claims under
study only apply it to non-empty vectors. -/
def Vector.PopBack (v : Vector T) : Vector T :=
  ⟨⟨some (v.mem.set (v.size_ - 1) none), v.data_.capacity_⟩, v.size_ - 1⟩

/-- Models `Reserve(new_capacity)` (lines 122-137) on the non-throwing path:
no-op when the request fits the current capacity, otherwise allocate, migrate
the `size_` live elements in order, destroy the old ones, adopt the new
block. -/
def Vector.Reserve (v : Vector T) (newCapacity : Nat) : Vector T :=
  if newCapacity ≤ v.Capacity then v
  else
    ⟨⟨some (copyN v.mem 0 v.size_ (RawMemory.ofCapacity T newCapacity).GetAddress 0),
      newCapacity⟩, v.size_⟩

/-- Models `operator=(const Vector&)` (lines 42-59) for distinct objects.
When `rhs.size_ > Capacity()`: copy-and-swap (`Vector tmp(rhs); Swap(tmp);`),
the copy constructor allocating exactly `rhs.size_` slots.  Otherwise, the
shrinking arm overwrites the prefix and destroys the excess, and the growing
arm is translated exactly as written in the source:
`std::copy_n(rhs.data_.GetAddress(), size_, data_.GetAddress())` followed by
`std::uninitialized_copy_n(rhs.data_.GetAddress(), rhs.Size() - size_,
data_.GetAddress())` — both calls read from the start of `rhs`'s block and
write from the start of `data_`'s block. -/
def Vector.copyAssignOp (a rhs : Vector T) : Vector T :=
  if rhs.size_ > a.Capacity then
    ⟨⟨some (copyN rhs.mem 0 rhs.size_ (List.replicate rhs.size_ none) 0), rhs.size_⟩,
      rhs.size_⟩
  else if rhs.size_ < a.size_ then
    ⟨⟨some (destroyN (copyN rhs.mem 0 rhs.size_ a.mem 0) rhs.size_ (a.size_ - rhs.size_)),
      a.data_.capacity_⟩, rhs.size_⟩
  else
    ⟨⟨some (copyN rhs.mem 0 (rhs.size_ - a.size_) (copyN rhs.mem 0 a.size_ a.mem 0) 0),
      a.data_.capacity_⟩, rhs.size_⟩

/-- Models `Vector(Vector&& other)` (lines 37-40):
`data_(std::move(other.data_)), size_(std::exchange(other.size_, 0))`.
Returns (the constructed vector, what `other` is left as). -/
def Vector.moveCtor (other : Vector T) : Vector T × Vector T :=
  let p := RawMemory.moveCtor other.data_
  (⟨p.1, other.size_⟩, ⟨p.2, 0⟩)

/-- Outcome of a move assignment, with its resource accounting. -/
structure MoveAssignResult (T : Type) where
  lhs : Vector T
  rhs : Vector T
  /-- element destructors the assignment ran -/
  elemsDestroyed : Nat
  /-- raw blocks the assignment deallocated -/
  blocksFreed : Nat
deriving DecidableEq

/-- Models `operator=(Vector&&)` (lines 61-67) for distinct objects:
`data_ = std::move(rhs.data_); size_ = std::exchange(rhs.size_, 0);`.
The body contains no `std::destroy_n`, so no element destructor runs on the
target's old elements, and `RawMemory::operator=(RawMemory&&)` frees no
block (see `RawMemory.moveAssign`). -/
def Vector.moveAssignOp (lhs rhs : Vector T) : MoveAssignResult T :=
  let p := RawMemory.moveAssign lhs.data_ rhs.data_
  ⟨⟨p.1, rhs.size_⟩, ⟨p.2.1, 0⟩, 0, p.2.2⟩

/-- Models `Emplace(pos, args...)` (lines 184-217) on the non-throwing path,
with `idx = pos - begin()`; returns `some (vector, returned index)` or `none`
on undefined behaviour.  The head assertion requires `idx ≤ size_`.  Under
capacity the source constructs the value in a side buffer, runs
`new (end()) T(std::forward<T>(*(end() - 1)))` and
`std::move_backward(begin() + idx, end() - 1, end())`, and move-assigns the
side buffer into `data_[idx]`; the read of `*(end() - 1)` and the range
`[begin() + idx, end() - 1)` are only valid when `idx < size_` — for
`idx = size_` (which includes every emplace into a vector with `size_ = 0`
and spare capacity) the range is inverted and the behaviour undefined, which
the model reflects by `none`.  At capacity the source allocates, constructs
the new element at `new_data + idx`, migrates `[0, idx)` to `[0, idx)` and
`[idx, size_)` to `[idx + 1, size_ + 1)`, destroys the old elements and
adopts the new block.  If `size_` exceeded `Capacity()` neither branch would
run and only `++size_` would happen; that state is unreachable from a
well-formed vector but the translation keeps the fall-through. -/
def Vector.Emplace (v : Vector T) (idx : Nat) (x : T) : Option (Vector T × Nat) :=
  if idx ≤ v.size_ then
    if v.size_ < v.Capacity then
      if idx < v.size_ then
        let m1 := v.mem.set v.size_ (slotAt v.mem (v.size_ - 1))
        let m2 := shiftUp m1 idx (v.size_ - 1 - idx)
        some (⟨⟨some (m2.set idx (some x)), v.data_.capacity_⟩, v.size_ + 1⟩, idx)
      else none
    else if v.size_ = v.Capacity then
      let newCap := if v.size_ ≠ 0 then v.size_ * 2 else 1
      let m1 := (RawMemory.ofCapacity T newCap).GetAddress.set idx (some x)
      let m2 := copyN v.mem 0 idx m1 0
      let m3 := copyN v.mem idx (v.size_ - idx) m2 (idx + 1)
      some (⟨⟨some m3, newCap⟩, v.size_ + 1⟩, idx)
    else
      some (⟨v.data_, v.size_ + 1⟩, idx)
  else none

/-- Models `Insert(pos, value)` (lines 227-233): delegates to `Emplace`. -/
def Vector.Insert (v : Vector T) (idx : Nat) (x : T) : Option (Vector T × Nat) :=
  v.Emplace idx x

/-- Models `Erase(pos)` (lines 219-225), with `idx = pos - begin()`:
`std::move(begin() + idx + 1, end(), begin() + idx)` shifts the tail forward,
then `PopBack()` destroys the vacated last slot; returns
`some (vector, returned index)`, or `none` when the head assertion
`idx < size_` fails. -/
def Vector.Erase (v : Vector T) (idx : Nat) : Option (Vector T × Nat) :=
  if idx < v.size_ then
    let m1 := moveFwd v.mem idx (v.size_ - 1 - idx)
    some (Vector.PopBack ⟨⟨some m1, v.data_.capacity_⟩, v.size_⟩, idx)
  else none

/-- Outcome of an operation terminated by a thrown element constructor,
with its resource accounting as the exception propagates out of the
`Vector` call. -/
structure ThrowOutcome (T : Type) where
  /-- the vector object after unwinding (for a failed `Vector(size_t)`
  construction no object exists; the field then records the empty state) -/
  vec : Vector T
  /-- elements the call constructed before propagating -/
  constructed : Nat
  /-- how many of those the call destroyed before propagating -/
  destroyed : Nat
  /-- newly acquired blocks not released before propagating -/
  blocksHeld : Nat
deriving DecidableEq

/-- Models `explicit Vector(size_t size)` (lines 22-27) for an element type
whose value construction number `i` throws exactly when `throwsAt i`.
`data_(size)` allocates first; if construction `k` throws,
`std::uninitialized_value_construct_n` destroys the `k` elements it had
constructed, and unwinding destroys the member `data_`, deallocating the
block — so the error outcome constructed `k`, destroyed `k`, and holds no
block. -/
def Vector.ConstructF (T : Type) [Inhabited T] (n : Nat) (throwsAt : Nat → Bool) :
    Except (ThrowOutcome T) (Vector T) :=
  match (List.range n).find? throwsAt with
  | some k => .error ⟨⟨⟨none, 0⟩, 0⟩, k, k, 0⟩
  | none => .ok (Vector.Construct T n)

/-- Damage left by a sequence of `k` element moves: the moved-from source
slots `[0, k)` are live but hold a valid-yet-unspecified value, modelled by
an arbitrary damage function `dmg` on the stored value. -/
def dmgPrefix (m : Mem T) (k : Nat) (dmg : T → T) : Mem T :=
  match k with
  | 0 => m
  | j + 1 => (dmgPrefix m j dmg).set j ((slotAt m j).map dmg)

/-- Models `Reserve(new_capacity)` (lines 122-137) for an element type whose
migration constructor invocation number `i` throws exactly when `throwsAt i`.
The compile-time traits select the migration call:
`std::uninitialized_move_n` when `nothrowMove ∨ ¬copyable`, otherwise
`std::uninitialized_copy_n`.  On a throw at index `k` either call destroys
the `k` destination elements it had constructed and `new_data`'s destructor
releases the fresh block, and neither `std::destroy_n(begin(), size_)` nor
the adopting swap is reached; on the move path the already-moved source
elements `[0, k)` are additionally left in a moved-from state (`dmg`). -/
def Vector.ReserveF (nothrowMove copyable : Bool) (dmg : T → T) (v : Vector T)
    (newCapacity : Nat) (throwsAt : Nat → Bool) : Except (ThrowOutcome T) (Vector T) :=
  if newCapacity ≤ v.Capacity then .ok v
  else
    if nothrowMove || !copyable then
      if nothrowMove then .ok (v.Reserve newCapacity)
      else
        match (List.range v.size_).find? throwsAt with
        | some k =>
          .error ⟨⟨⟨some (dmgPrefix v.mem k dmg), v.data_.capacity_⟩, v.size_⟩, k, k, 0⟩
        | none => .ok (v.Reserve newCapacity)
    else
      match (List.range v.size_).find? throwsAt with
      | some k => .error ⟨v, k, k, 0⟩
      | none => .ok (v.Reserve newCapacity)

/-- Models `EmplaceBack` (lines 163-182) for a copy-constructible element
type whose move constructor may throw (so migration uses
`std::uninitialized_copy_n`), where constructing the new element throws when
`newThrows` and copying source element `i` throws when `copyThrowsAt i`.
In the reallocating branch the new element is constructed at
`new_data + size_` first; if a later migration copy `k` throws,
`std::uninitialized_copy_n` destroys only the `k` copies it made — there is
no try/catch in `EmplaceBack` (contrast `Emplace`, lines 204-210), so the
already-constructed new element is never destroyed, while `new_data`'s
destructor still releases the block and `*this` is untouched: the error
outcome constructed `k + 1` elements but destroyed only `k`. -/
def Vector.EmplaceBackF (v : Vector T) (x : T) (newThrows : Bool)
    (copyThrowsAt : Nat → Bool) : Except (ThrowOutcome T) (Vector T) :=
  if v.size_ = v.Capacity then
    let newCap := if v.size_ ≠ 0 then v.size_ * 2 else 1
    if newThrows then .error ⟨v, 0, 0, 0⟩
    else
      match (List.range v.size_).find? copyThrowsAt with
      | some k => .error ⟨v, k + 1, k, 0⟩
      | none =>
        .ok ⟨⟨some (copyN v.mem 0 v.size_
          ((RawMemory.ofCapacity T newCap).GetAddress.set v.size_ (some x)) 0), newCap⟩,
          v.size_ + 1⟩
  else
    if newThrows then .error ⟨v, 0, 0, 0⟩
    else .ok ⟨⟨some (v.mem.set v.size_ (some x)), v.data_.capacity_⟩, v.size_ + 1⟩

/-- A step of a `PushBack`/`PopBack` sequence. -/
inductive VOp (T : Type) where
  | push : T → VOp T
  | pop : VOp T
deriving DecidableEq

/-- Run one step on a vector. -/
def applyOp (v : Vector T) : VOp T → Vector T
  | VOp.push x => v.PushBack x
  | VOp.pop => v.PopBack

/-- Run a sequence of steps on a vector. -/
def applyOps (v : Vector T) (ops : List (VOp T)) : Vector T :=
  ops.foldl applyOp v

/-- A sequence is valid from `v` when every `pop` happens on a non-empty
vector. -/
def validOps (v : Vector T) : List (VOp T) → Bool
  | [] => true
  | VOp.push x :: r => validOps (v.PushBack x) r
  | VOp.pop :: r => (v.size_ != 0) && validOps v.PopBack r

/-- Number of pushes in a sequence. -/
def numPushes : List (VOp T) → Nat
  | [] => 0
  | VOp.push _ :: r => numPushes r + 1
  | VOp.pop :: r => numPushes r

/-- Number of pops in a sequence. -/
def numPops : List (VOp T) → Nat
  | [] => 0
  | VOp.push _ :: r => numPops r
  | VOp.pop :: r => numPops r + 1

/-- The specification-level semantics of a `PushBack`/`PopBack` sequence on
the abstract element list: push appends, pop removes the last element — the
surviving elements in push order. -/
def stackRun (l : List T) : List (VOp T) → List T
  | [] => l
  | VOp.push x :: r => stackRun (l ++ [x]) r
  | VOp.pop :: r => stackRun l.dropLast r

instance (d : RawMemory T) : Decidable d.WF := by
  unfold RawMemory.WF; infer_instance

instance (v : Vector T) : Decidable v.WF := by
  unfold Vector.WF; infer_instance

theorem slotAt_set_self (m : Mem T) (i : Nat) (a : Option T) (h : i < m.length) :
    slotAt (m.set i a) i = a := by
  simp [slotAt, List.getD_eq_getElem?_getD, List.getElem?_set_eq_of_lt, h]

theorem slotAt_set_of_ne (m : Mem T) (i j : Nat) (a : Option T) (h : i ≠ j) :
    slotAt (m.set i a) j = slotAt m j := by
  simp [slotAt, List.getD_eq_getElem?_getD, List.getElem?_set_ne, h]

theorem copyN_length (src : Mem T) (srcOfs : Nat) (n : Nat) (dst : Mem T) (dstOfs : Nat) :
    (copyN src srcOfs n dst dstOfs).length = dst.length := by
  induction n with
  | zero => rfl
  | succ k ih => simp [copyN, ih]

theorem slotAt_copyN (src : Mem T) (srcOfs : Nat) (n : Nat) (dst : Mem T) (dstOfs j : Nat)
    (hlen : dstOfs + n ≤ dst.length) :
    slotAt (copyN src srcOfs n dst dstOfs) j =
      if dstOfs ≤ j ∧ j < dstOfs + n then slotAt src (srcOfs + (j - dstOfs))
      else slotAt dst j := by
  induction n with
  | zero =>
    simp only [copyN]
    rw [if_neg (by omega)]
  | succ k ih =>
    simp only [copyN]
    by_cases hj : j = dstOfs + k
    · subst hj
      rw [slotAt_set_self _ _ _ (by rw [copyN_length]; omega)]
      rw [if_pos (by omega)]
      congr 1
      omega
    · rw [slotAt_set_of_ne _ _ _ _ (fun he => hj he.symm)]
      rw [ih (by omega)]
      by_cases hin : dstOfs ≤ j ∧ j < dstOfs + k
      · rw [if_pos hin, if_pos (by omega)]
      · rw [if_neg hin, if_neg (by omega)]

theorem moveFwd_length : ∀ (c : Nat) (m : Mem T) (idx : Nat),
    (moveFwd m idx c).length = m.length := by
  intro c
  induction c with
  | zero => intro m idx; rfl
  | succ k ih => intro m idx; simp [moveFwd, ih]

theorem slotAt_moveFwd : ∀ (c : Nat) (m : Mem T) (idx j : Nat), idx + c ≤ m.length →
    slotAt (moveFwd m idx c) j =
      if idx ≤ j ∧ j < idx + c then slotAt m (j + 1) else slotAt m j := by
  intro c
  induction c with
  | zero =>
    intro m idx j _
    simp only [moveFwd]
    rw [if_neg (by omega)]
  | succ k ih =>
    intro m idx j hlen
    simp only [moveFwd]
    rw [ih _ (idx + 1) j (by simpa using by omega)]
    by_cases hj : j = idx
    · subst hj
      rw [if_neg (by omega), if_pos (by omega)]
      exact slotAt_set_self _ _ _ (by omega)
    · by_cases hin : idx + 1 ≤ j ∧ j < idx + 1 + k
      · rw [if_pos hin, if_pos (by omega)]
        exact slotAt_set_of_ne _ _ _ _ (by omega)
      · rw [if_neg hin, if_neg (by omega)]
        exact slotAt_set_of_ne _ _ _ _ (fun he => hj he.symm)

theorem GetAddress_ofCapacity (T : Type) (n : Nat) (h : n ≠ 0) :
    (RawMemory.ofCapacity T n).GetAddress = List.replicate n (none : Option T) := by
  simp [RawMemory.ofCapacity, RawMemory.Allocate, RawMemory.GetAddress, h]

theorem mem_mk (m : Mem T) (c s : Nat) : (Vector.mk ⟨some m, c⟩ s).mem = m := rfl

theorem capacity_mk (b : Option (Mem T)) (c s : Nat) :
    (Vector.mk ⟨b, c⟩ s).Capacity = c := rfl

theorem size_mk (d : RawMemory T) (s : Nat) : (Vector.mk d s).size_ = s := rfl

theorem Capacity_def (v : Vector T) : v.Capacity = v.data_.capacity_ := rfl

theorem mem_length (v : Vector T) (h : v.WF) : v.mem.length = v.Capacity := h.1.1

theorem WF_mk_some (m : Mem T) (c s : Nat) :
    (Vector.mk ⟨some m, c⟩ s).WF ↔
      m.length = c ∧ c ≠ 0 ∧ s ≤ c ∧ ∀ i, i < s → (slotAt m i).isSome = true := by
  constructor
  · rintro ⟨⟨h1, h2⟩, h3, h4⟩
    refine ⟨h1, ?_, h3, h4⟩
    intro h0
    have : (some m).isNone = true := h2.mpr h0
    simp at this
  · rintro ⟨h1, h2, h3, h4⟩
    refine ⟨⟨h1, ?_⟩, h3, h4⟩
    simp only [Option.isNone_some]
    constructor
    · intro hfalse; cases hfalse
    · intro h0; exact absurd h0 h2

theorem EmplaceBack_spec (v : Vector T) (x : T) (h : v.WF) :
    (v.EmplaceBack x).WF ∧ (v.EmplaceBack x).size_ = v.size_ + 1 ∧
      (∀ j, j < v.size_ → slotAt (v.EmplaceBack x).mem j = slotAt v.mem j) ∧
      slotAt (v.EmplaceBack x).mem v.size_ = some x ∧
      (v.size_ < v.Capacity → (v.EmplaceBack x).Capacity = v.Capacity) := by
  have hlen : v.mem.length = v.Capacity := mem_length v h
  obtain ⟨_, hsz, hlive⟩ := h
  by_cases hc : v.size_ = v.Capacity
  · have hcap : v.size_ < (if v.size_ ≠ 0 then v.size_ * 2 else 1) ∧
        (if v.size_ ≠ 0 then v.size_ * 2 else 1) ≠ 0 := by split <;> omega
    have hget := GetAddress_ofCapacity T (if v.size_ ≠ 0 then v.size_ * 2 else 1) hcap.2
    have hmlen : ((RawMemory.ofCapacity T (if v.size_ ≠ 0 then v.size_ * 2 else 1)).GetAddress.set
        v.size_ (some x)).length = (if v.size_ ≠ 0 then v.size_ * 2 else 1) := by
      rw [hget, List.length_set, List.length_replicate]
    have hslot : ∀ j, j ≤ v.size_ →
        slotAt (copyN v.mem 0 v.size_
          ((RawMemory.ofCapacity T (if v.size_ ≠ 0 then v.size_ * 2 else 1)).GetAddress.set
            v.size_ (some x)) 0) j =
          if j < v.size_ then slotAt v.mem j else some x := by
      intro j hj
      rw [slotAt_copyN _ _ _ _ _ _ (by omega)]
      by_cases hjs : j < v.size_
      · rw [if_pos (by omega), if_pos hjs]
        congr 1
        omega
      · have hje : j = v.size_ := by omega
        rw [if_neg (by omega), if_neg hjs, hje, hget]
        exact slotAt_set_self _ _ _ (by rw [List.length_replicate]; exact hcap.1)
    simp only [Vector.EmplaceBack, if_pos hc]
    rw [WF_mk_some, size_mk, capacity_mk, mem_mk]
    refine ⟨⟨?_, hcap.2, by omega, ?_⟩, trivial, ?_, ?_, ?_⟩
    · rw [copyN_length, hmlen]
    · intro i hi
      rw [hslot i (by omega)]
      by_cases his : i < v.size_
      · rw [if_pos his]; exact hlive i his
      · rw [if_neg his]; rfl
    · intro j hj
      rw [hslot j (by omega), if_pos hj]
    · rw [hslot v.size_ (le_refl _), if_neg (by omega)]
    · intro hlt
      exact absurd hc (Nat.ne_of_lt hlt)
  · have hlt : v.size_ < v.Capacity := Nat.lt_of_le_of_ne hsz hc
    simp only [Vector.EmplaceBack, if_neg hc]
    rw [WF_mk_some, size_mk, capacity_mk, mem_mk]
    rw [Capacity_def] at hlt hlen
    refine ⟨⟨by rw [List.length_set]; exact hlen, by omega, by omega, ?_⟩, trivial, ?_, ?_, ?_⟩
    · intro i hi
      by_cases his : i < v.size_
      · rw [slotAt_set_of_ne _ _ _ _ (by omega)]
        exact hlive i his
      · have : i = v.size_ := by omega
        subst this
        rw [slotAt_set_self _ _ _ (by omega)]
        rfl
    · intro j hj
      exact slotAt_set_of_ne _ _ _ _ (by omega)
    · exact slotAt_set_self _ _ _ (by omega)
    · intro _; rfl

theorem PushBack_spec (v : Vector T) (x : T) (h : v.WF) :
    (v.PushBack x).WF ∧ (v.PushBack x).size_ = v.size_ + 1 ∧
      (∀ j, j < v.size_ → slotAt (v.PushBack x).mem j = slotAt v.mem j) ∧
      slotAt (v.PushBack x).mem v.size_ = some x ∧
      (v.size_ < v.Capacity → (v.PushBack x).Capacity = v.Capacity) :=
  EmplaceBack_spec v x h

theorem PushBack_toList [Inhabited T] (v : Vector T) (x : T) (h : v.WF) :
    (v.PushBack x).toList = v.toList ++ [x] := by
  obtain ⟨_, hsz, hpt, hnew, _⟩ := PushBack_spec v x h
  unfold Vector.toList
  rw [hsz, List.range_succ, List.map_append]
  congr 1
  · exact List.map_congr_left fun i hi => by rw [hpt i (List.mem_range.mp hi)]
  · simp [hnew]

theorem PopBack_spec (v : Vector T) (h : v.WF) (hs : 0 < v.size_) :
    v.PopBack.WF ∧ v.PopBack.size_ = v.size_ - 1 ∧ v.PopBack.Capacity = v.Capacity ∧
      ∀ j, j < v.size_ - 1 → slotAt v.PopBack.mem j = slotAt v.mem j := by
  have hlen : v.mem.length = v.Capacity := mem_length v h
  obtain ⟨_, hsz, hlive⟩ := h
  rw [Capacity_def] at hlen hsz
  show (Vector.mk ⟨some (v.mem.set (v.size_ - 1) none), v.data_.capacity_⟩ (v.size_ - 1)).WF ∧ _
  rw [WF_mk_some]
  refine ⟨⟨by rw [List.length_set]; exact hlen, by omega, by omega, ?_⟩, rfl, rfl, ?_⟩
  · intro i hi
    rw [slotAt_set_of_ne _ _ _ _ (by omega)]
    exact hlive i (by omega)
  · intro j hj
    show slotAt (v.mem.set (v.size_ - 1) none) j = slotAt v.mem j
    exact slotAt_set_of_ne _ _ _ _ (by omega)

theorem PopBack_toList [Inhabited T] (v : Vector T) (h : v.WF) (hs : 0 < v.size_) :
    v.PopBack.toList = v.toList.dropLast := by
  obtain ⟨_, hsz, _, hpt⟩ := PopBack_spec v h hs
  unfold Vector.toList
  rw [hsz]
  have hr : v.size_ = (v.size_ - 1) + 1 := by omega
  conv_rhs => rw [hr]
  rw [List.range_succ, List.map_append]
  simp only [List.map_cons, List.map_nil]
  rw [List.dropLast_concat]
  exact List.map_congr_left fun i hi => by rw [hpt i (List.mem_range.mp hi)]

theorem Reserve_spec (v : Vector T) (n : Nat) (h : v.WF) :
    (v.Reserve n).WF ∧ (v.Reserve n).size_ = v.size_ ∧
      (v.Reserve n).Capacity = max v.Capacity n ∧
      ∀ j, j < v.size_ → slotAt (v.Reserve n).mem j = slotAt v.mem j := by
  by_cases hc : n ≤ v.Capacity
  · simp only [Vector.Reserve, if_pos hc]
    exact ⟨h, trivial, (Nat.max_eq_left hc).symm, fun j hj => trivial⟩
  · have hlen : v.mem.length = v.Capacity := mem_length v h
    obtain ⟨_, hsz, hlive⟩ := h
    have hn0 : n ≠ 0 := by omega
    have hget := GetAddress_ofCapacity T n hn0
    have hslot : ∀ j, j < v.size_ →
        slotAt (copyN v.mem 0 v.size_ (RawMemory.ofCapacity T n).GetAddress 0) j =
          slotAt v.mem j := by
      intro j hj
      rw [slotAt_copyN _ _ _ _ _ _ (by rw [hget, List.length_replicate]; omega),
        if_pos (by omega)]
      congr 1
      omega
    simp only [Vector.Reserve, if_neg hc]
    rw [WF_mk_some, size_mk, capacity_mk, mem_mk]
    refine ⟨⟨?_, hn0, by omega, ?_⟩, trivial, ?_, ?_⟩
    · rw [copyN_length, hget, List.length_replicate]
    · intro i hi
      rw [hslot i hi]
      exact hlive i hi
    · omega
    · intro j hj
      exact hslot j hj

theorem pushSeq_capacity : ∀ (xs : List T) (w : Vector T), w.WF →
    w.size_ + xs.length ≤ w.Capacity →
    (xs.foldl Vector.PushBack w).Capacity = w.Capacity ∧
      (xs.foldl Vector.PushBack w).WF ∧
      (xs.foldl Vector.PushBack w).size_ = w.size_ + xs.length := by
  intro xs
  induction xs with
  | nil => intro w hw _; exact ⟨rfl, hw, by simp⟩
  | cons x r ih =>
    intro w hw hfit
    simp only [List.length_cons] at hfit
    have hlt : w.size_ < w.Capacity := by omega
    obtain ⟨hw2, hsz2, _, _, hcap2⟩ := PushBack_spec w x hw
    have hcap2 := hcap2 hlt
    simp only [List.foldl_cons]
    obtain ⟨ha, hb, hcc⟩ := ih (w.PushBack x) hw2 (by rw [hsz2, hcap2]; omega)
    refine ⟨by rw [ha, hcap2], hb, ?_⟩
    rw [hcc, hsz2]
    simp only [List.length_cons]
    omega

/-- C1: the claim states that after copy assignment `a = b` with
`b.Size() ≤ a.Capacity()`, `a.Size() = b.Size()` and `a[i] = b[i]` for every
`i < b.Size()`, the elements `a[old_size, b.Size())` being copy-constructed
from `b[old_size, b.Size())`.  The code contradicts it: both calls of the
growing arm read from the start of `rhs`'s block and write from the start of
`a`'s block, so for `a = [10]` with capacity 2 and `b = [20, 30]` the
assignment ends with `a.size_ = 2` but slot 1 still uninitialized (`none`)
instead of holding `30` — and slot 0 is copy-constructed over the live
element already copy-assigned there. -/
theorem claim_C1_copy_assign_growing_arm :
    Vector.copyAssignOp (⟨⟨some [some 10, none], 2⟩, 1⟩ : Vector Nat)
        ⟨⟨some [some 20, some 30], 2⟩, 2⟩ =
      ⟨⟨some [some 20, none], 2⟩, 2⟩ := by decide

/-- C2: the claim states that `Emplace`/`Insert` at any position
`0 ≤ i ≤ n` succeeds, including `i = n` with spare capacity.  The code
contradicts it: with spare capacity and `i = n` the in-place branch calls
`std::move_backward(begin() + n, end() - 1, end())` on an inverted range
(and for `n = 0` also reads `*(end() - 1)` before the buffer), which is
undefined behaviour — modelled by `none` — while the same insertion at
`i = n` succeeds via the reallocating branch when the vector is at
capacity. -/
theorem claim_C2_emplace_at_end :
    Vector.Emplace (⟨⟨some [some 1, some 2, some 3, none], 4⟩, 3⟩ : Vector Nat) 3 9 = none ∧
    Vector.Emplace (⟨⟨some [some 1, some 2, some 3], 3⟩, 3⟩ : Vector Nat) 3 9 =
      some (⟨⟨some [some 1, some 2, some 3, some 9, none, none], 6⟩, 4⟩, 3) ∧
    Vector.Emplace (⟨⟨some [some 1, some 2, some 3, none], 4⟩, 3⟩ : Vector Nat) 1 9 =
      some (⟨⟨some [some 1, some 9, some 2, some 3], 4⟩, 4⟩, 1) := by
  refine ⟨rfl, rfl, rfl⟩

/-- C3: the claim states that when a reallocating `EmplaceBack` is
terminated by a throwing element constructor, every element constructed
within the call is destroyed before the exception propagates.  The code
contradicts it: on `[1, 2]` at capacity 2, with the copy of source element 1
throwing during migration, the call constructed 2 elements (the new element
at `new_data + size_` plus 1 migrated copy) but destroyed only 1 — the new
element is leaked because `EmplaceBack` has no try/catch around the copy
(the vector itself is left unchanged and the new block is released).  The
second conjunct shows the other failure point of the claim behaving as
specified: when constructing the new element itself throws, nothing is
constructed, nothing leaks. -/
theorem claim_C3_emplaceback_migration_leak :
    Vector.EmplaceBackF (⟨⟨some [some 1, some 2], 2⟩, 2⟩ : Vector Nat) 5 false
        (fun i => i == 1) =
      .error ⟨⟨⟨some [some 1, some 2], 2⟩, 2⟩, 2, 1, 0⟩ ∧
    Vector.EmplaceBackF (⟨⟨some [some 1, some 2], 2⟩, 2⟩ : Vector Nat) 5 true
        (fun _ => false) =
      .error ⟨⟨⟨some [some 1, some 2], 2⟩, 2⟩, 0, 0, 0⟩ :=
  ⟨rfl, rfl⟩

/-- C4 counterexample: the claim quantifies over every element type whose
constructor throws on the k-th invocation, but for a non-copyable element
type with a throwing move constructor `Reserve` migrates with
`std::uninitialized_move_n`, and a throw at invocation 1 leaves source
element 0 moved-from: on `[5, 6]` (damage function mapping every moved-from
value to `0`), the failed `Reserve(3)` ends with slot 0 holding `0`, not the
original `5` — the vector does not keep "exactly the elements it had before
the call". -/
theorem claim_C4_counterexample :
    Vector.ReserveF false false (fun _ => 0) (⟨⟨some [some 5, some 6], 2⟩, 2⟩ : Vector Nat) 3
        (fun i => i == 1) =
      .error ⟨⟨⟨some [some 0, some 6], 2⟩, 2⟩, 1, 1, 0⟩ ∧
    slotAt (⟨⟨some [some 0, some 6], 2⟩, 2⟩ : Vector Nat).mem 0 ≠
      slotAt (⟨⟨some [some 5, some 6], 2⟩, 2⟩ : Vector Nat).mem 0 :=
  ⟨rfl, by decide⟩

/-- C4 (amended): if an element constructor throws on the k-th invocation,
`Construct(n)` ends with every constructed element destroyed, no block
retained and no vector object (the empty state), and `Reserve` ends with
every element constructed within the call destroyed and no block retained;
when migration takes the copy path (copy-constructible element type) the
vector is exactly as before the call, and on the move path (non-copyable
element type with a throwing move constructor) size and capacity are
unchanged but already-migrated elements may be left moved-from.  In every
case exactly the constructed elements are destroyed, so no destructor runs
on never-constructed memory. -/
theorem claim_C4_throwing_ctor_rollback (T : Type) [Inhabited T] :
    (∀ (n : Nat) (f : Nat → Bool) (o : ThrowOutcome T),
        Vector.ConstructF T n f = .error o →
        o.destroyed = o.constructed ∧ o.blocksHeld = 0 ∧ o.vec = ⟨⟨none, 0⟩, 0⟩) ∧
    (∀ (dmg : T → T) (v : Vector T) (n : Nat) (f : Nat → Bool) (o : ThrowOutcome T),
        Vector.ReserveF false true dmg v n f = .error o →
        o.vec = v ∧ o.destroyed = o.constructed ∧ o.blocksHeld = 0) ∧
    (∀ (dmg : T → T) (v : Vector T) (n : Nat) (f : Nat → Bool) (o : ThrowOutcome T),
        Vector.ReserveF false false dmg v n f = .error o →
        o.vec.size_ = v.size_ ∧ o.vec.Capacity = v.Capacity ∧
          o.destroyed = o.constructed ∧ o.blocksHeld = 0) := by
  refine ⟨?_, ?_, ?_⟩
  · intro n f o he
    unfold Vector.ConstructF at he
    split at he
    · injection he with h2
      subst h2
      exact ⟨rfl, rfl, rfl⟩
    · cases he
  · intro dmg v n f o he
    unfold Vector.ReserveF at he
    split at he
    · cases he
    · split at he
      · simp at *
      · split at he
        · injection he with h2
          subst h2
          exact ⟨rfl, rfl, rfl⟩
        · cases he
  · intro dmg v n f o he
    unfold Vector.ReserveF at he
    split at he
    · cases he
    · split at he
      · split at he
        · simp at *
        · split at he
          · injection he with h2
            subst h2
            exact ⟨rfl, rfl, rfl, rfl⟩
          · cases he
      · simp at *

/-- C4 witness: the amended theorem applied at `n = 3` with the constructor
throwing on invocation 1, and at `Reserve(2)` on the one-element vector
`[7]` with every migration constructor throwing, on both the copy path and
the move path. -/
theorem claim_C4_throwing_ctor_rollback_witness :
    (Vector.ConstructF Nat 3 (fun i => i == 1) = .error ⟨⟨⟨none, 0⟩, 0⟩, 1, 1, 0⟩ ∧
      ((1 : Nat) = 1 ∧ (0 : Nat) = 0 ∧
        (⟨⟨none, 0⟩, 0⟩ : Vector Nat) = ⟨⟨none, 0⟩, 0⟩)) ∧
    (Vector.ReserveF false true id (⟨⟨some [some 7], 1⟩, 1⟩ : Vector Nat) 2 (fun _ => true) =
        .error ⟨⟨⟨some [some 7], 1⟩, 1⟩, 0, 0, 0⟩ ∧
      ((⟨⟨some [some 7], 1⟩, 1⟩ : Vector Nat) = ⟨⟨some [some 7], 1⟩, 1⟩ ∧
        (0 : Nat) = 0 ∧ (0 : Nat) = 0)) ∧
    (Vector.ReserveF false false id (⟨⟨some [some 7], 1⟩, 1⟩ : Vector Nat) 2 (fun _ => true) =
        .error ⟨⟨⟨some [some 7], 1⟩, 1⟩, 0, 0, 0⟩ ∧
      ((1 : Nat) = 1 ∧ (1 : Nat) = 1 ∧ (0 : Nat) = 0 ∧ (0 : Nat) = 0)) :=
  ⟨⟨rfl, (claim_C4_throwing_ctor_rollback Nat).1 3 (fun i => i == 1)
      ⟨⟨⟨none, 0⟩, 0⟩, 1, 1, 0⟩ rfl⟩,
    ⟨rfl, (claim_C4_throwing_ctor_rollback Nat).2.1 id ⟨⟨some [some 7], 1⟩, 1⟩ 2
      (fun _ => true) ⟨⟨⟨some [some 7], 1⟩, 1⟩, 0, 0, 0⟩ rfl⟩,
    ⟨rfl, (claim_C4_throwing_ctor_rollback Nat).2.2 id ⟨⟨some [some 7], 1⟩, 1⟩ 2
      (fun _ => true) ⟨⟨⟨some [some 7], 1⟩, 1⟩, 0, 0, 0⟩ rfl⟩⟩

/-- C5: the claim states that every public operation preserves the invariant
"size ≤ capacity with slots [0, size) holding live elements".  The code
contradicts the liveness half: copy assignment of `[7, 8]` into the vector
`[5]` of capacity 3 takes the growing within-capacity arm, whose misdirected
tail copy leaves slot 1 uninitialized — the result still has
`size_ ≤ Capacity` but is not well-formed, since a slot below `size_` holds
no live element. -/
theorem claim_C5_invariant_breach :
    ((Vector.copyAssignOp (⟨⟨some [some 5, none, none], 3⟩, 1⟩ : Vector Nat)
        ⟨⟨some [some 7, some 8], 2⟩, 2⟩).size_ ≤
      (Vector.copyAssignOp (⟨⟨some [some 5, none, none], 3⟩, 1⟩ : Vector Nat)
        ⟨⟨some [some 7, some 8], 2⟩, 2⟩).Capacity) ∧
    slotAt (Vector.copyAssignOp (⟨⟨some [some 5, none, none], 3⟩, 1⟩ : Vector Nat)
        ⟨⟨some [some 7, some 8], 2⟩, 2⟩).mem 1 = none ∧
    1 < (Vector.copyAssignOp (⟨⟨some [some 5, none, none], 3⟩, 1⟩ : Vector Nat)
        ⟨⟨some [some 7, some 8], 2⟩, 2⟩).size_ ∧
    ¬ (Vector.copyAssignOp (⟨⟨some [some 5, none, none], 3⟩, 1⟩ : Vector Nat)
        ⟨⟨some [some 7, some 8], 2⟩, 2⟩).WF := by decide


/-- C6: for every sequence of `PushBack`/`PopBack` steps starting from any
well-formed vector, with every pop applied to a non-empty vector, the
resulting elements are exactly the specification-level stack semantics of
the sequence (surviving elements in push order), and the final size plus the
number of pops equals the initial size plus the number of pushes. -/
theorem claim_C6_push_pop_sequences [Inhabited T] :
    ∀ (ops : List (VOp T)) (v : Vector T), v.WF → validOps v ops = true →
      (applyOps v ops).toList = stackRun v.toList ops ∧
      (applyOps v ops).size_ + numPops ops = v.size_ + numPushes ops := by
  intro ops
  induction ops with
  | nil =>
    intro v hv _
    exact ⟨rfl, rfl⟩
  | cons op r ih =>
    intro v hv hval
    cases op with
    | push x =>
      obtain ⟨hw, hsz, _, _, _⟩ := PushBack_spec v x hv
      have hval2 : validOps (v.PushBack x) r = true := hval
      have happ : applyOps v (VOp.push x :: r) = applyOps (v.PushBack x) r := rfl
      obtain ⟨ih1, ih2⟩ := ih (v.PushBack x) hw hval2
      constructor
      · show (applyOps (v.PushBack x) r).toList = stackRun (v.toList ++ [x]) r
        rw [ih1, PushBack_toList v x hv]
      · rw [happ]
        show _ + numPops r = v.size_ + (numPushes r + 1)
        omega
    | pop =>
      simp only [validOps, Bool.and_eq_true, bne_iff_ne] at hval
      have hs : 0 < v.size_ := Nat.pos_of_ne_zero hval.1
      obtain ⟨hw, hsz, _, _⟩ := PopBack_spec v hv hs
      have happ : applyOps v (VOp.pop :: r) = applyOps v.PopBack r := rfl
      obtain ⟨ih1, ih2⟩ := ih v.PopBack hw hval.2
      constructor
      · show (applyOps v.PopBack r).toList = stackRun v.toList.dropLast r
        rw [ih1, PopBack_toList v hv hs]
      · rw [happ]
        show _ + (numPops r + 1) = v.size_ + numPushes r
        omega

/-- C6 witness: the theorem applied to the empty vector and the sequence
push 1, push 2, pop, push 3. -/
theorem claim_C6_push_pop_sequences_witness :
    ((⟨⟨none, 0⟩, 0⟩ : Vector Nat).WF ∧
      validOps (⟨⟨none, 0⟩, 0⟩ : Vector Nat)
        [VOp.push 1, VOp.push 2, VOp.pop, VOp.push 3] = true) ∧
    ((applyOps (⟨⟨none, 0⟩, 0⟩ : Vector Nat)
        [VOp.push 1, VOp.push 2, VOp.pop, VOp.push 3]).toList =
      stackRun (⟨⟨none, 0⟩, 0⟩ : Vector Nat).toList
        [VOp.push 1, VOp.push 2, VOp.pop, VOp.push 3] ∧
      (applyOps (⟨⟨none, 0⟩, 0⟩ : Vector Nat)
          [VOp.push 1, VOp.push 2, VOp.pop, VOp.push 3]).size_ +
        numPops [VOp.push (1 : Nat), VOp.push 2, VOp.pop, VOp.push 3] =
      (⟨⟨none, 0⟩, 0⟩ : Vector Nat).size_ +
        numPushes [VOp.push (1 : Nat), VOp.push 2, VOp.pop, VOp.push 3]) :=
  ⟨⟨by decide, by decide⟩,
    claim_C6_push_pop_sequences [VOp.push 1, VOp.push 2, VOp.pop, VOp.push 3]
      ⟨⟨none, 0⟩, 0⟩ (by decide) (by decide)⟩

/-- C7 counterexample: the claim states that `Reserve(n)` followed by up to
`n` pushes never reallocates.  The code contradicts it for a non-empty
vector: on `[5]` of capacity 1, `Reserve(2)` and two pushes (two ≤ n = 2)
end with capacity 4, which is neither `n = 2` nor a larger pre-existing
capacity (the old capacity 1 is below 2). -/
theorem claim_C7_counterexample :
    ((((⟨⟨some [some 5], 1⟩, 1⟩ : Vector Nat).Reserve 2).PushBack 6).PushBack 7).Capacity = 4 ∧
    (⟨⟨some [some 5], 1⟩, 1⟩ : Vector Nat).Capacity < 2 ∧ (4 : Nat) ≠ 2 := by decide

/-- C7 (amended): `Reserve(n)` with `n ≤ capacity` is a no-op, and
`Reserve(n)` followed by any number of pushes that keeps the total element
count within `n` never reallocates: the capacity observed after each of those
pushes equals `n` (or the pre-existing larger capacity), i.e.
`max capacity n`. -/
theorem claim_C7_reserve_then_push (v : Vector T) (n : Nat) (xs : List T) (h : v.WF)
    (hn : v.size_ + xs.length ≤ n) :
    (n ≤ v.Capacity → v.Reserve n = v) ∧
    ∀ k, k ≤ xs.length →
      ((xs.take k).foldl Vector.PushBack (v.Reserve n)).Capacity = max v.Capacity n := by
  obtain ⟨hw, hsz, hcap, _⟩ := Reserve_spec v n h
  constructor
  · intro hle
    simp only [Vector.Reserve, if_pos hle]
  · intro k hk
    have hfit : (v.Reserve n).size_ + (xs.take k).length ≤ (v.Reserve n).Capacity := by
      rw [hsz, hcap, List.length_take]
      have : min k xs.length ≤ xs.length := Nat.min_le_right _ _
      omega
    obtain ⟨hc, _, _⟩ := pushSeq_capacity (xs.take k) (v.Reserve n) hw hfit
    rw [hc, hcap]

/-- C7 witness: the amended theorem applied to the one-element vector `[1]`
of capacity 1, `n = 3` and pushes of 2 and 3: after each push the capacity
equals `max 1 3 = 3`. -/
theorem claim_C7_reserve_then_push_witness :
    ((⟨⟨some [some 1], 1⟩, 1⟩ : Vector Nat).WF ∧
      (⟨⟨some [some 1], 1⟩, 1⟩ : Vector Nat).size_ + [2, 3].length ≤ 3) ∧
    ((3 ≤ (⟨⟨some [some 1], 1⟩, 1⟩ : Vector Nat).Capacity →
        (⟨⟨some [some 1], 1⟩, 1⟩ : Vector Nat).Reserve 3 = ⟨⟨some [some 1], 1⟩, 1⟩) ∧
      ∀ k, k ≤ [2, 3].length →
        (([2, 3].take k).foldl Vector.PushBack
            ((⟨⟨some [some 1], 1⟩, 1⟩ : Vector Nat).Reserve 3)).Capacity =
          max (⟨⟨some [some 1], 1⟩, 1⟩ : Vector Nat).Capacity 3) :=
  ⟨⟨by decide, by decide⟩,
    claim_C7_reserve_then_push ⟨⟨some [some 1], 1⟩, 1⟩ 3 [2, 3] (by decide) (by decide)⟩

/-- C8: the claim states that move assignment releases the target's current
elements and storage before the transfer (and that the transfer itself moves
the source's elements over and empties the source).  The code contradicts
the release: assigning `[1, 2]` into the vector `[9]` of capacity 1
transfers the block and empties the source, but runs 0 element destructors
and deallocates 0 blocks — the target's old element `9` is never destroyed
and its block is never freed (`Vector::operator=(Vector&&)` contains no
`destroy_n`, and `RawMemory::operator=(RawMemory&&)` overwrites `buffer_`
without `Deallocate`), where the claim requires 1 destructor call and 1
released block.  The second conjunct records move construction, which has no
old state to release and behaves as claimed. -/
theorem claim_C8_move_assign_no_release :
    Vector.moveAssignOp (⟨⟨some [some 9], 1⟩, 1⟩ : Vector Nat)
        ⟨⟨some [some 1, some 2], 2⟩, 2⟩ =
      ⟨⟨⟨some [some 1, some 2], 2⟩, 2⟩, ⟨⟨none, 0⟩, 0⟩, 0, 0⟩ ∧
    Vector.moveCtor (⟨⟨some [some 1, some 2], 2⟩, 2⟩ : Vector Nat) =
      (⟨⟨some [some 1, some 2], 2⟩, 2⟩, ⟨⟨none, 0⟩, 0⟩) :=
  ⟨rfl, rfl⟩

/-- C9: erasing position `idx < n` from a well-formed vector of size `n`
yields size `n - 1` with capacity unchanged, slots `[0, idx)` untouched and
slots `[idx, n - 1)` holding the original elements `[idx + 1, n)`, and
returns the index `idx` — the slot that now holds the element that followed
the erased one (when one existed). -/
theorem claim_C9_erase (v : Vector T) (idx : Nat) (h : v.WF) (hi : idx < v.size_) :
    ∃ w, v.Erase idx = some (w, idx) ∧ w.WF ∧ w.size_ = v.size_ - 1 ∧
      w.Capacity = v.Capacity ∧
      (∀ j, j < idx → slotAt w.mem j = slotAt v.mem j) ∧
      (∀ j, idx ≤ j → j + 1 < v.size_ → slotAt w.mem j = slotAt v.mem (j + 1)) := by
  have hlen : v.mem.length = v.Capacity := mem_length v h
  obtain ⟨_, hsz, hlive⟩ := h
  rw [Capacity_def] at hlen hsz
  have hml : (moveFwd v.mem idx (v.size_ - 1 - idx)).length = v.mem.length :=
    moveFwd_length _ _ _
  have hmv : ∀ j, slotAt (moveFwd v.mem idx (v.size_ - 1 - idx)) j =
      if idx ≤ j ∧ j < idx + (v.size_ - 1 - idx) then slotAt v.mem (j + 1)
      else slotAt v.mem j :=
    fun j => slotAt_moveFwd _ _ _ j (by omega)
  refine ⟨Vector.PopBack ⟨⟨some (moveFwd v.mem idx (v.size_ - 1 - idx)),
    v.data_.capacity_⟩, v.size_⟩, ?_, ?_, rfl, rfl, ?_, ?_⟩
  · simp only [Vector.Erase, if_pos hi]
  · show (Vector.mk ⟨some ((moveFwd v.mem idx (v.size_ - 1 - idx)).set (v.size_ - 1) none),
      v.data_.capacity_⟩ (v.size_ - 1)).WF
    rw [WF_mk_some]
    refine ⟨by rw [List.length_set, hml]; exact hlen, by omega, by omega, ?_⟩
    intro i hi2
    rw [slotAt_set_of_ne _ _ _ _ (by omega), hmv i]
    by_cases hcase : idx ≤ i ∧ i < idx + (v.size_ - 1 - idx)
    · rw [if_pos hcase]
      exact hlive (i + 1) (by omega)
    · rw [if_neg hcase]
      exact hlive i (by omega)
  · intro j hj
    show slotAt ((moveFwd v.mem idx (v.size_ - 1 - idx)).set (v.size_ - 1) none) j =
      slotAt v.mem j
    rw [slotAt_set_of_ne _ _ _ _ (by omega), hmv j, if_neg (by omega)]
  · intro j hj1 hj2
    show slotAt ((moveFwd v.mem idx (v.size_ - 1 - idx)).set (v.size_ - 1) none) j =
      slotAt v.mem (j + 1)
    rw [slotAt_set_of_ne _ _ _ _ (by omega), hmv j, if_pos (by omega)]

/-- C9 witness: the theorem applied to the vector `[1, 2, 3]` at position 1. -/
theorem claim_C9_erase_witness :
    ((⟨⟨some [some 1, some 2, some 3], 3⟩, 3⟩ : Vector Nat).WF ∧
      1 < (⟨⟨some [some 1, some 2, some 3], 3⟩, 3⟩ : Vector Nat).size_) ∧
    (∃ w, (⟨⟨some [some 1, some 2, some 3], 3⟩, 3⟩ : Vector Nat).Erase 1 = some (w, 1) ∧
      w.WF ∧ w.size_ = (⟨⟨some [some 1, some 2, some 3], 3⟩, 3⟩ : Vector Nat).size_ - 1 ∧
      w.Capacity = (⟨⟨some [some 1, some 2, some 3], 3⟩, 3⟩ : Vector Nat).Capacity ∧
      (∀ j, j < 1 →
        slotAt w.mem j = slotAt (⟨⟨some [some 1, some 2, some 3], 3⟩, 3⟩ : Vector Nat).mem j) ∧
      (∀ j, 1 ≤ j → j + 1 < (⟨⟨some [some 1, some 2, some 3], 3⟩, 3⟩ : Vector Nat).size_ →
        slotAt w.mem j =
          slotAt (⟨⟨some [some 1, some 2, some 3], 3⟩, 3⟩ : Vector Nat).mem (j + 1))) :=
  ⟨⟨by decide, by decide⟩,
    claim_C9_erase ⟨⟨some [some 1, some 2, some 3], 3⟩, 3⟩ 1 (by decide) (by decide)⟩

/-- C10: a moved-from vector (source of a move construction or of a move
assignment) is left with a null `buffer_` and capacity 0, not merely size 0,
and a subsequent `EmplaceBack` on that state starts from capacity 0 and
reallocates to capacity 1. -/
theorem claim_C10_moved_from_null (a b : Vector T) (x : T) :
    (Vector.moveCtor a).2 = ⟨⟨none, 0⟩, 0⟩ ∧
    (Vector.moveAssignOp b a).rhs = ⟨⟨none, 0⟩, 0⟩ ∧
    (⟨⟨none, 0⟩, 0⟩ : Vector T).data_.buffer_ = none ∧
    (⟨⟨none, 0⟩, 0⟩ : Vector T).Capacity = 0 ∧
    (Vector.EmplaceBack (⟨⟨none, 0⟩, 0⟩ : Vector T) x).Capacity = 1 :=
  ⟨rfl, rfl, rfl, rfl, rfl⟩


end AdvVector
